import Mathlib

/-!
Verification of the duplicate-name resolution, destination naming and
retry/concurrency orchestration logic of `.github/scripts/sync.py`
(docker-sync-platform).

The Python script is shallowly embedded:
* pure string manipulation (`detect_duplicates`, `build_skopeo_copy_cmd`)
  becomes pure Lean functions over `String` / `List String`;
* the external subprocess call (Python `run_cmd`) becomes a function of an
  abstract per-attempt outcome (`AttemptOutcome`);
* the per-task retry loop (`sync_image_task`) becomes a fuel-indexed
  recursion producing an event trace plus the returned `(rc, target)` pair;
* the asyncio semaphore orchestration becomes a labelled small-step
  transition system (`Step` / `Trace`) over per-task phases.

Python dictionaries are embedded as functions (`String → Option String`
for `temp_map`, `String → Bool` for key membership in `duplicates`).
-/

namespace DockerSync

/-! ### Python string primitives

`line.split()` (whitespace split dropping empty fields), `s.split(c)` for a
single-character separator, `s.strip()`, and `s.replace(a, b)` for a
single-character pattern, modelled over `List Char`. -/

/-- The characters Python's `str.split()` / `str.strip()` treat as whitespace
    (space, tab, newline, carriage return, vertical tab, form feed). -/
def isPyWs (c : Char) : Bool :=
  c == ' ' || c == '\t' || c == '\n' || c == '\r' || c == Char.ofNat 11 || c == Char.ofNat 12

/-- Split a character list at every character satisfying `p`, keeping empty
    fields (the behaviour of Python `s.split(sep)` for one separator char). -/
def splitPred (p : Char → Bool) : List Char → List (List Char)
  | [] => [[]]
  | c :: rest =>
    match splitPred p rest with
    | [] => [[]]
    | h :: t => if p c then [] :: h :: t else (c :: h) :: t

/-- Python `s.split(sep)` for a single-character separator. -/
def pySplit (sep : Char) (s : String) : List String :=
  (splitPred (fun c => c == sep) s.toList).map (fun l => String.mk l)

/-- Python `line.split()`: split on whitespace runs, dropping empty fields. -/
def pyTokens (s : String) : List String :=
  ((splitPred isPyWs s.toList).map (fun l => String.mk l)).filter (fun t => t ≠ "")

/-- Python `s.strip()`. -/
def pyStrip (s : String) : String :=
  String.mk (((s.toList.dropWhile isPyWs).reverse.dropWhile isPyWs).reverse)

/-- Python `s.replace(a, b)` for single characters `a`, `b`. -/
def pyReplaceChar (s : String) (a b : Char) : String :=
  String.mk (s.toList.map (fun c => if c = a then b else c))

/-! ### The `--platform` regex

`re.search(r"--platform(?:[ =])([^ \t]+)", line)`: leftmost position where
the literal `--platform` is followed by a space or `=` and then a non-empty
maximal run of non-space, non-tab characters; that run is the group. -/

/-- Attempt the pattern at the head of the character list. -/
def platformGroupAt (l : List Char) : Option (List Char) :=
  if ("--platform".toList).isPrefixOf l then
    match l.drop 10 with
    | [] => none
    | s :: rest =>
      if s == ' ' || s == '=' then
        let g := rest.takeWhile (fun c => !(c == ' ' || c == '\t'))
        if g = [] then none else some g
      else none
  else none

/-- Leftmost match of the `--platform` pattern (Python `re.search`). -/
def findPlatformGroup : List Char → Option (List Char)
  | [] => none
  | c :: rest =>
    match platformGroupAt (c :: rest) with
    | some g => some g
    | none => findPlatformGroup rest

/-- `sync.py` lines 146-149 plus the later truthiness tests: the platform
    value is the stripped regex group; an absent match or an empty stripped
    group (falsy in Python) both behave as "no platform". -/
def platformOf (line : String) : Option String :=
  match findPlatformGroup line.toList with
  | none => none
  | some g =>
    let p := pyStrip (String.mk g)
    if p = "" then none else some p

/-! ### Shared line parsing (sync.py lines 121-125 and 151-155)

Both `detect_duplicates` and `build_skopeo_copy_cmd` perform the same
parse: last whitespace token, strip `@digest`, split on `/`, take the last
segment, and cut the tag at the first `:`. -/

/-- `line.split()[-1]` (lines are non-blank in the script, so the token list
    is non-empty there; `""` is the total default). -/
def lastToken (line : String) : String := (pyTokens line).getLastD ""

/-- `image.split("@")[0]`: the digest-stripped image path. -/
def imageOf (line : String) : String := (pySplit '@' (lastToken line)).headD ""

/-- `image.split("/")`: the path segments. -/
def partsOf (line : String) : List String := pySplit '/' (imageOf line)

/-- `parts[-1]`: final segment including the tag. -/
def imageNameTagOf (line : String) : String := (partsOf line).getLastD ""

/-- `parts[-1].split(":")[0]`: the image name. -/
def imageNameOf (line : String) : String := (pySplit ':' (imageNameTagOf line)).headD ""

/-! ### Duplicate detection (sync.py lines 117-139) -/

/-- Namespace selection of `detect_duplicates` (lines 127-132):
    `parts[1]` when there are exactly 3 segments, `parts[0]` when exactly 2,
    empty otherwise. -/
def nsSeg (parts : List String) : String :=
  if parts.length = 3 then parts.getD 1 ""
  else if parts.length = 2 then parts.getD 0 ""
  else ""

/-- The `(image_name, namespace)` pair one line contributes to duplicate
    detection; line 133 appends `"_"` to the namespace. -/
def nameNs (line : String) : String × String :=
  (imageNameOf line, nsSeg (partsOf line) ++ "_")

/-- The loop body state of `detect_duplicates`: `temp_map` is the dictionary
    `image_name ↦ first-seen namespace`, `dups` is key membership in the
    `duplicates` dictionary. -/
def detectAux : List (String × String) → (String → Option String) → (String → Bool) → String → Bool
  | [], _, dups => dups
  | (n, v) :: rest, tm, dups =>
    match tm n with
    | some prev =>
      if prev ≠ v then
        detectAux rest tm (fun x => if x = n then true else dups x)
      else
        detectAux rest (fun x => if x = n then some v else tm x) dups
    | none => detectAux rest (fun x => if x = n then some v else tm x) dups

/-- `detect_duplicates(lines)`, as key membership in the returned dict. -/
def detect_duplicates (lines : List String) : String → Bool :=
  detectAux (lines.map nameNs) (fun _ => none) (fun _ => false)

example : nameNs "library/nginx:latest" = ("nginx", "library_") := by decide
example : nameNs "otherorg/nginx:latest" = ("nginx", "otherorg_") := by decide
example : nameNs "nginx:latest" = ("nginx", "_") := by decide
example : nameNs "reg.io/org/app:1@sha256:abc" = ("app", "org_") := by decide
example : detect_duplicates ["library/nginx:latest", "otherorg/nginx:latest"] "nginx" = true := by
  decide
example : detect_duplicates ["library/nginx:latest", "library/nginx:1.0"] "nginx" = false := by
  decide
example : platformOf "--platform linux/arm64 alpine:3.19" = some "linux/arm64" := by decide
example : platformOf "--platform=linux/arm64 alpine:3.19" = some "linux/arm64" := by decide
example : platformOf "alpine:3.19" = none := by decide
example : platformOf "--platform arm64 alpine:3.19" = some "arm64" := by decide

/-! ### Characterisation of `detect_duplicates`

`temp_map` permanently records the first-seen namespace of a name (the
`else` branch only ever rewrites an equal value), so a name is flagged iff
some line carries it with a namespace different from the first-seen one,
i.e. iff it occurs under two distinct namespaces. -/

lemma detectAux_recorded (pairs : List (String × String)) :
    ∀ (tm : String → Option String) (dups : String → Bool) (name ns : String),
      tm name = some ns →
      detectAux pairs tm dups name =
        (dups name || pairs.any (fun q => q.1 == name && q.2 != ns)) := by
  induction pairs with
  | nil =>
    intro tm dups name ns h
    simp [detectAux]
  | cons p rest ih =>
    obtain ⟨n, v⟩ := p
    intro tm dups name ns h
    by_cases hn : n = name
    · subst hn
      simp only [detectAux, h]
      by_cases hv : ns ≠ v
      · rw [if_pos hv, ih tm _ n ns h]
        have hvne : (v != ns) = true := bne_iff_ne.mpr (Ne.symm hv)
        simp [hvne]
      · rw [if_neg hv]
        have hveq : ns = v := not_not.mp hv
        rw [ih _ dups n ns (by simp [hveq])]
        have hvne : (v != ns) = false := by simp [hveq]
        simp [hvne]
    · have hn' : name ≠ n := fun he => hn he.symm
      have hbeq : (n == name) = false := beq_eq_false_iff_ne.mpr hn
      cases htm : tm n with
      | none =>
        simp only [detectAux, htm]
        rw [ih _ _ name ns (by rw [if_neg hn']; exact h)]
        simp [hbeq]
      | some prev =>
        simp only [detectAux, htm]
        by_cases hv : prev ≠ v
        · rw [if_pos hv, ih tm _ name ns h]
          simp [hbeq, hn']
        · rw [if_neg hv]
          rw [ih _ dups name ns (by rw [if_neg hn']; exact h)]
          simp [hbeq]

/-- `hasConflict name pairs`: some later pair shares `name` with the first
    occurrence but carries a different namespace. -/
def hasConflict (name : String) : List (String × String) → Bool
  | [] => false
  | (n, v) :: rest =>
    if n = name then rest.any (fun q => q.1 == name && q.2 != v)
    else hasConflict name rest

lemma detectAux_fresh (pairs : List (String × String)) :
    ∀ (tm : String → Option String) (dups : String → Bool) (name : String),
      tm name = none →
      detectAux pairs tm dups name = (dups name || hasConflict name pairs) := by
  induction pairs with
  | nil =>
    intro tm dups name h
    simp [detectAux, hasConflict]
  | cons p rest ih =>
    obtain ⟨n, v⟩ := p
    intro tm dups name h
    by_cases hn : n = name
    · subst hn
      simp only [detectAux, h]
      rw [detectAux_recorded rest _ dups n v (by simp)]
      simp [hasConflict]
    · have hn' : name ≠ n := fun he => hn he.symm
      cases htm : tm n with
      | none =>
        simp only [detectAux, htm]
        rw [ih _ dups name (by rw [if_neg hn']; exact h)]
        simp [hasConflict, hn]
      | some prev =>
        simp only [detectAux, htm]
        by_cases hv : prev ≠ v
        · rw [if_pos hv, ih tm _ name h]
          simp [hasConflict, hn, hn']
        · rw [if_neg hv]
          rw [ih _ dups name (by rw [if_neg hn']; exact h)]
          simp [hasConflict, hn]

lemma hasConflict_iff (name : String) (pairs : List (String × String)) :
    hasConflict name pairs = true ↔
      ∃ v1 v2, (name, v1) ∈ pairs ∧ (name, v2) ∈ pairs ∧ v1 ≠ v2 := by
  induction pairs with
  | nil => simp [hasConflict]
  | cons p rest ih =>
    obtain ⟨n, v⟩ := p
    by_cases hn : n = name
    · subst hn
      have hc : hasConflict n ((n, v) :: rest) = rest.any (fun q => q.1 == n && q.2 != v) := by
        simp [hasConflict]
      rw [hc]
      constructor
      · intro hany
        rw [List.any_eq_true] at hany
        obtain ⟨q, hq, hqp⟩ := hany
        simp only [beq_iff_eq, bne_iff_ne, Bool.and_eq_true] at hqp
        refine ⟨v, q.2, List.mem_cons_self _ _, ?_, fun he => hqp.2 he.symm⟩
        have hq' : q = (n, q.2) := by
          obtain ⟨a, b⟩ := q
          simpa using hqp.1
        exact List.mem_cons_of_mem _ (hq' ▸ hq)
      · rintro ⟨v1, v2, h1, h2, hne⟩
        rw [List.any_eq_true]
        rcases List.mem_cons.mp h1 with he1 | hm1 <;> rcases List.mem_cons.mp h2 with he2 | hm2
        · exfalso
          apply hne
          have e1 : v1 = v := ((Prod.mk.injEq _ _ _ _).mp he1).2
          have e2 : v2 = v := ((Prod.mk.injEq _ _ _ _).mp he2).2
          rw [e1, e2]
        · have e1 : v1 = v := ((Prod.mk.injEq _ _ _ _).mp he1).2
          refine ⟨(n, v2), hm2, ?_⟩
          simp only [beq_iff_eq, bne_iff_ne, Bool.and_eq_true]
          exact ⟨trivial, fun he => hne (by rw [e1, he])⟩
        · have e2 : v2 = v := ((Prod.mk.injEq _ _ _ _).mp he2).2
          refine ⟨(n, v1), hm1, ?_⟩
          simp only [beq_iff_eq, bne_iff_ne, Bool.and_eq_true]
          exact ⟨trivial, fun he => hne (by rw [he, ← e2])⟩
        · by_cases hv1 : v1 = v
          · refine ⟨(n, v2), hm2, ?_⟩
            simp only [beq_iff_eq, bne_iff_ne, Bool.and_eq_true]
            exact ⟨trivial, fun he => hne (by rw [hv1, he])⟩
          · refine ⟨(n, v1), hm1, ?_⟩
            simp only [beq_iff_eq, bne_iff_ne, Bool.and_eq_true]
            exact ⟨trivial, hv1⟩
    · simp only [hasConflict, if_neg hn]
      rw [ih]
      constructor
      · rintro ⟨v1, v2, h1, h2, hne⟩
        exact ⟨v1, v2, List.mem_cons_of_mem _ h1, List.mem_cons_of_mem _ h2, hne⟩
      · rintro ⟨v1, v2, h1, h2, hne⟩
        have hne' : n ≠ name := hn
        rcases List.mem_cons.mp h1 with he1 | hm1
        · exact absurd ((Prod.mk.injEq _ _ _ _).mp he1 |>.1).symm hne'
        rcases List.mem_cons.mp h2 with he2 | hm2
        · exact absurd ((Prod.mk.injEq _ _ _ _).mp he2 |>.1).symm hne'
        exact ⟨v1, v2, hm1, hm2, hne⟩

/-- A name is flagged by `detect_duplicates` iff it occurs under two
    distinct namespaces among the `(image_name, namespace)` pairs of the
    input lines. -/
lemma detect_dup_iff (lines : List String) (name : String) :
    detect_duplicates lines name = true ↔
      ∃ v1 v2, (name, v1) ∈ lines.map nameNs ∧ (name, v2) ∈ lines.map nameNs ∧ v1 ≠ v2 := by
  unfold detect_duplicates
  rw [detectAux_fresh _ _ _ _ rfl]
  simp [hasConflict_iff]

/-- Once flagged on a prefix of the scan, a name stays flagged. -/
lemma detect_dup_mono (lines more : List String) (name : String)
    (h : detect_duplicates lines name = true) :
    detect_duplicates (lines ++ more) name = true := by
  rw [detect_dup_iff] at h ⊢
  obtain ⟨v1, v2, h1, h2, hne⟩ := h
  exact ⟨v1, v2, by simp only [List.map_append, List.mem_append]; exact Or.inl h1,
    by simp only [List.map_append, List.mem_append]; exact Or.inl h2, hne⟩

/-! ### Destination naming (`build_skopeo_copy_cmd`, sync.py lines 144-181) -/

/-- Registry configuration (`ALIYUN_REGISTRY` / `ALIYUN_NAME_SPACE`). -/
structure Config where
  registry : String
  nameSpace : String

/-- Lines 157-162: the disambiguation path segment prefix. -/
def dupPrefix (line : String) (dups : String → Bool) : String :=
  if dups (imageNameOf line) then
    if 2 ≤ (partsOf line).length then (partsOf line).getD ((partsOf line).length - 2) "" ++ "_"
    else ""
  else ""

/-- Lines 164-166: the `-os-arch` destination suffix. -/
def platformSfx (line : String) : String :=
  match platformOf line with
  | some p => "-" ++ pyReplaceChar p '/' '-'
  | none => ""

/-- Line 176: `parts_p[0] if len(parts_p) >= 1 and parts_p[0] else "linux"`
    (a split list is never empty, so only truthiness of `parts_p[0]` matters). -/
def overrideOs (p : String) : String :=
  if (pySplit '/' p).getD 0 "" ≠ "" then (pySplit '/' p).getD 0 "" else "linux"

/-- Line 177: `parts_p[1] if len(parts_p) >= 2 and parts_p[1] else "amd64"`. -/
def overrideArch (p : String) : String :=
  if 2 ≤ (pySplit '/' p).length ∧ (pySplit '/' p).getD 1 "" ≠ "" then (pySplit '/' p).getD 1 ""
  else "amd64"

/-- `build_skopeo_copy_cmd(line, duplicates)` returning
    `(source, target, cmd)`. -/
def build_skopeo_copy_cmd (cfg : Config) (line : String) (dups : String → Bool) :
    String × String × List String :=
  let source := "docker://" ++ imageOf line
  let target := "docker://" ++ cfg.registry ++ "/" ++ cfg.nameSpace ++ "/" ++
      dupPrefix line dups ++ imageNameTagOf line ++ platformSfx line
  let cmd := ["skopeo", "copy"] ++
      (match platformOf line with
       | some p => ["--override-os", overrideOs p, "--override-arch", overrideArch p]
       | none => []) ++ [source, target]
  (source, target, cmd)

/-- The spec's §3 wording for the namespace selection, for comparison with
    the code's `nsSeg`: second-to-last segment if at least 2 segments exist,
    else the sole segment if exactly 1, else empty. -/
def nsSegSpecWording (parts : List String) : String :=
  if 2 ≤ parts.length then parts.getD (parts.length - 2) ""
  else if parts.length = 1 then parts.getD 0 ""
  else ""

example : (nsSeg (partsOf "registry.io/org/team/app:1"), nsSegSpecWording (partsOf "registry.io/org/team/app:1")) = ("", "team") := by decide
example : (nsSeg (partsOf "nginx:latest"), nsSegSpecWording (partsOf "nginx:latest")) = ("", "nginx:latest") := by decide

/-- If a string contains no separator, the Python split returns the whole
    string as its only field. -/
lemma splitPred_no_sep (sep : Char) (l : List Char) (h : sep ∉ l) :
    splitPred (fun c => c == sep) l = [l] := by
  induction l with
  | nil => simp [splitPred]
  | cons c rest ih =>
    have hc : (c == sep) = false :=
      beq_eq_false_iff_ne.mpr (fun he => h (he ▸ List.mem_cons_self _ _))
    rw [splitPred, ih (fun hm => h (List.mem_cons_of_mem _ hm)), hc]
    simp

lemma pySplit_no_sep (sep : Char) (p : String) (h : sep ∉ p.toList) :
    pySplit sep p = [p] := by
  unfold pySplit
  rw [splitPred_no_sep sep p.toList h]
  rfl

/-! ### Subprocess execution and the per-task retry loop
(sync.py `run_cmd` lines 64-84, `sync_image_task` lines 186-219)

One external invocation either completes with an exit code and streams,
exceeds the wall-clock timeout (`asyncio.TimeoutError`), or raises some
other exception. -/

inductive AttemptOutcome where
  | completed (rc : Int) (stdout stderr : String)
  | timedOut
  | raised (msg : String)
deriving DecidableEq

/-- Python `run_cmd`: on completion it forwards `(rc, out, err)`; on timeout
    it returns the synthetic code 124 with a `TIMEOUT after <t>s` marker; on
    any other exception the synthetic code 125. -/
def runCmd (timeout : Nat) : AttemptOutcome → Int × String × String
  | .completed rc out err => (rc, out, err)
  | .timedOut => (124, "", "TIMEOUT after " ++ toString timeout ++ "s")
  | .raised _msg => (125, "", "EXCEPTION: " ++ _msg)

/-- In the `asyncio.TimeoutError` handler (lines 76-82) the external process
    is killed (`proc.kill()`); the other paths never kill it. -/
def killsProcess : AttemptOutcome → Bool
  | .timedOut => true
  | _ => false

/-- Observable events of one task: a `START`/`CMD`-logged copy attempt
    (lines 197-199) and a backoff sleep (lines 214-216). -/
inductive Ev where
  | attempt (n : Nat) (source target : String) (cmd : List String)
  | sleep (secs : Nat)
deriving DecidableEq

/-- The `while attempt <= RETRY_COUNT` loop of `sync_image_task`,
    parametrised by the outcome of each numbered attempt. The fuel is
    `RETRY_COUNT + 1 - attempt`, the number of loop iterations left; the
    loop always returns before exhausting it. Returns the event trace and
    the Python return value `(rc, target)` (`return rc or 1` on
    exhaustion). -/
def syncLoop (retryCount timeout : Nat) (outcome : Nat → AttemptOutcome)
    (source target : String) (cmd : List String) : Nat → Nat → List Ev × Int × String
  | 0, _ => ([], 0, target)
  | fuel + 1, attempt =>
    let a := attempt + 1
    let rc := (runCmd timeout (outcome a)).1
    if rc = 0 then ([Ev.attempt a source target cmd], 0, target)
    else if a ≤ retryCount then
      let r := syncLoop retryCount timeout outcome source target cmd fuel a
      (Ev.attempt a source target cmd :: Ev.sleep (2 ^ (a - 1)) :: r.1, r.2)
    else ([Ev.attempt a source target cmd], (if rc = 0 then 1 else rc), target)

/-- `sync_image_task`: build the command once, then run the retry loop from
    `attempt = 0`. -/
def sync_image_task (cfg : Config) (retryCount timeout : Nat) (line : String)
    (dups : String → Bool) (outcome : Nat → AttemptOutcome) : List Ev × Int × String :=
  let r := build_skopeo_copy_cmd cfg line dups
  syncLoop retryCount timeout outcome r.1 r.2.1 r.2.2 (retryCount + 1) 0

/-- The trace of a task all of whose attempts fail: attempts `1` to
    `retryCount + 1`, each with the same source/target/command, with a
    backoff sleep of `2 ^ (a - 1)` seconds after every non-final attempt. -/
def expectedFailTrace (source target : String) (cmd : List String) (retryCount : Nat) :
    List Ev :=
  (List.range' 1 (retryCount + 1)).flatMap (fun a =>
    Ev.attempt a source target cmd :: (if a ≤ retryCount then [Ev.sleep (2 ^ (a - 1))] else []))

/-- Suffix version of `expectedFailTrace`, starting after `attempt` already
    completed attempts. -/
def expectedFailTraceFrom (source target : String) (cmd : List String)
    (retryCount attempt : Nat) : List Ev :=
  (List.range' (attempt + 1) (retryCount + 1 - attempt)).flatMap (fun a =>
    Ev.attempt a source target cmd :: (if a ≤ retryCount then [Ev.sleep (2 ^ (a - 1))] else []))

lemma expectedFailTraceFrom_zero (source target : String) (cmd : List String)
    (retryCount : Nat) :
    expectedFailTraceFrom source target cmd retryCount 0 =
      expectedFailTrace source target cmd retryCount := by
  simp [expectedFailTraceFrom, expectedFailTrace]

lemma expectedFailTraceFrom_last (source target : String) (cmd : List String)
    (retryCount : Nat) :
    expectedFailTraceFrom source target cmd retryCount retryCount =
      [Ev.attempt (retryCount + 1) source target cmd] := by
  unfold expectedFailTraceFrom
  have h1 : retryCount + 1 - retryCount = 1 := by omega
  rw [h1, List.range'_one]
  simp [Nat.not_succ_le_self]

lemma expectedFailTraceFrom_cons (source target : String) (cmd : List String)
    (retryCount attempt : Nat) (h : attempt + 1 ≤ retryCount) :
    expectedFailTraceFrom source target cmd retryCount attempt =
      Ev.attempt (attempt + 1) source target cmd :: Ev.sleep (2 ^ attempt) ::
        expectedFailTraceFrom source target cmd retryCount (attempt + 1) := by
  unfold expectedFailTraceFrom
  have h1 : retryCount + 1 - attempt = (retryCount - attempt) + 1 := by omega
  have h2 : retryCount + 1 - (attempt + 1) = retryCount - attempt := by omega
  rw [h1, h2, List.range'_succ, List.flatMap_cons]
  simp [h]

/-- One unfolding step of the retry loop. -/
lemma syncLoop_step (retryCount timeout : Nat) (outcome : Nat → AttemptOutcome)
    (source target : String) (cmd : List String) (fuel attempt : Nat) :
    syncLoop retryCount timeout outcome source target cmd (fuel + 1) attempt =
      (if (runCmd timeout (outcome (attempt + 1))).1 = 0 then
        ([Ev.attempt (attempt + 1) source target cmd], 0, target)
      else if attempt + 1 ≤ retryCount then
        (Ev.attempt (attempt + 1) source target cmd :: Ev.sleep (2 ^ (attempt + 1 - 1)) ::
          (syncLoop retryCount timeout outcome source target cmd fuel (attempt + 1)).1,
         (syncLoop retryCount timeout outcome source target cmd fuel (attempt + 1)).2)
      else ([Ev.attempt (attempt + 1) source target cmd],
        (if (runCmd timeout (outcome (attempt + 1))).1 = 0 then 1
         else (runCmd timeout (outcome (attempt + 1))).1), target)) := rfl

lemma syncLoop_all_fail (retryCount timeout : Nat) (outcome : Nat → AttemptOutcome)
    (source target : String) (cmd : List String)
    (hfail : ∀ a, (runCmd timeout (outcome a)).1 ≠ 0) :
    ∀ (k attempt : Nat), attempt + k = retryCount →
      syncLoop retryCount timeout outcome source target cmd (k + 1) attempt =
        (expectedFailTraceFrom source target cmd retryCount attempt,
         (runCmd timeout (outcome (retryCount + 1))).1, target) := by
  intro k
  induction k with
  | zero =>
    intro attempt hat
    simp only [Nat.add_zero] at hat
    subst hat
    rw [syncLoop_step]
    rw [if_neg (hfail (attempt + 1)), if_neg (Nat.not_succ_le_self attempt),
      if_neg (hfail (attempt + 1)), expectedFailTraceFrom_last]
  | succ k ih =>
    intro attempt hat
    have hle : attempt + 1 ≤ retryCount := by omega
    have hrec := ih (attempt + 1) (by omega)
    rw [syncLoop_step]
    rw [if_neg (hfail (attempt + 1)), if_pos hle, hrec,
      expectedFailTraceFrom_cons source target cmd retryCount attempt hle]
    simp [Nat.add_sub_cancel]

def isAttemptEv : Ev → Bool
  | .attempt _ _ _ _ => true
  | .sleep _ => false

lemma expectedFailTraceFrom_attempt_count (source target : String) (cmd : List String)
    (retryCount : Nat) :
    ∀ (n s : Nat),
      ((List.range' s n).flatMap (fun a =>
        Ev.attempt a source target cmd ::
          (if a ≤ retryCount then [Ev.sleep (2 ^ (a - 1))] else []))).countP isAttemptEv = n := by
  intro n
  induction n with
  | zero => intro s; simp
  | succ n ih =>
    intro s
    rw [List.range'_succ, List.flatMap_cons, List.countP_append, ih (s + 1)]
    by_cases h : s ≤ retryCount <;> simp [h, isAttemptEv, List.countP_cons] <;> omega

lemma expectedFailTrace_attempt_count (source target : String) (cmd : List String)
    (retryCount : Nat) :
    (expectedFailTrace source target cmd retryCount).countP isAttemptEv = retryCount + 1 :=
  expectedFailTraceFrom_attempt_count source target cmd retryCount (retryCount + 1) 1

/-- The retry loop's control flow depends on an attempt's exit code only
    through its zero-ness: outcome sequences agreeing on which attempts
    succeed produce the same event trace and the same success status. -/
lemma syncLoop_status_only (retryCount timeout : Nat) (o1 o2 : Nat → AttemptOutcome)
    (source target : String) (cmd : List String)
    (h : ∀ a, ((runCmd timeout (o1 a)).1 = 0 ↔ (runCmd timeout (o2 a)).1 = 0)) :
    ∀ (fuel attempt : Nat),
      (syncLoop retryCount timeout o1 source target cmd fuel attempt).1 =
        (syncLoop retryCount timeout o2 source target cmd fuel attempt).1 ∧
      ((syncLoop retryCount timeout o1 source target cmd fuel attempt).2.1 = 0 ↔
       (syncLoop retryCount timeout o2 source target cmd fuel attempt).2.1 = 0) := by
  intro fuel
  induction fuel with
  | zero => intro attempt; simp [syncLoop]
  | succ fuel ih =>
    intro attempt
    rw [syncLoop_step, syncLoop_step]
    by_cases h0 : (runCmd timeout (o1 (attempt + 1))).1 = 0
    · have h0' : (runCmd timeout (o2 (attempt + 1))).1 = 0 := (h _).mp h0
      rw [if_pos h0, if_pos h0']
      simp
    · have h0' : ¬ (runCmd timeout (o2 (attempt + 1))).1 = 0 := fun hh => h0 ((h _).mpr hh)
      rw [if_neg h0, if_neg h0']
      by_cases hle : attempt + 1 ≤ retryCount
      · rw [if_pos hle, if_pos hle]
        obtain ⟨e1, e2⟩ := ih (attempt + 1)
        exact ⟨by simp [e1], by simpa using e2⟩
      · rw [if_neg hle, if_neg hle, if_neg h0, if_neg h0']
        exact ⟨rfl, by simp [h0, h0']⟩

/-! ### Result aggregation and the process exit code
(sync.py `main`, lines 249-276, and the module-level configuration check,
lines 33-35)

`asyncio.gather(..., return_exceptions=True)` yields per task either its
returned `(rc, target)` tuple or a captured exception object. -/

inductive TaskResult where
  | ok (rc : Int) (target : String)
  | exn (msg : String)
deriving DecidableEq

/-- A result counted by the `success += 1` branch. -/
def isSuccess : TaskResult → Bool
  | .ok rc _ => rc == 0
  | .exn _ => false

/-- The `failed_items` list built by the aggregation loop (lines 254-264):
    a non-zero tuple contributes `(target, rc)`, an exception contributes
    the placeholder `("unknown", 1)`. -/
def failedItems : List TaskResult → List (String × Int)
  | [] => []
  | .ok rc tgt :: rest => (if rc = 0 then [] else [(tgt, rc)]) ++ failedItems rest
  | .exn _ :: rest => ("unknown", 1) :: failedItems rest

/-- The `success` counter. -/
def successCount (rs : List TaskResult) : Nat := (rs.filter isSuccess).length

/-- The process exit code of `main`: 1 on missing configuration (lines
    33-35), failing `skopeo --version` (lines 229-233), failing login
    (lines 93-95), missing input file (lines 103-105), or a non-empty
    `failed_items` (lines 273-276); 0 otherwise. -/
def mainExitCode (configOk : Bool) (skopeoRc loginRc : Int) (fileOk : Bool)
    (results : List TaskResult) : Nat :=
  if configOk = false then 1
  else if skopeoRc ≠ 0 then 1
  else if loginRc ≠ 0 then 1
  else if fileOk = false then 1
  else if failedItems results = [] then 0 else 1

lemma failedItems_eq_nil_iff (rs : List TaskResult) :
    failedItems rs = [] ↔ ∀ r ∈ rs, ∃ tgt, r = TaskResult.ok 0 tgt := by
  induction rs with
  | nil => simp [failedItems]
  | cons r rest ih =>
    cases r with
    | ok rc tgt =>
      by_cases h : rc = 0
      · subst h
        simp [failedItems, ih]
      · constructor
        · intro hf
          exfalso
          rw [failedItems, if_neg h] at hf
          simp at hf
        · intro hall
          obtain ⟨t, ht⟩ := hall (TaskResult.ok rc tgt) (List.mem_cons_self _ _)
          exact absurd ((TaskResult.ok.injEq _ _ _ _).mp ht).1 h
    | exn m =>
      constructor
      · intro hf
        rw [failedItems] at hf
        cases hf
      · intro hall
        obtain ⟨t, ht⟩ := hall (TaskResult.exn m) (List.mem_cons_self _ _)
        cases ht

lemma exn_mem_failedItems (rs : List TaskResult) (msg : String)
    (h : TaskResult.exn msg ∈ rs) : ("unknown", 1) ∈ failedItems rs := by
  induction rs with
  | nil => cases h
  | cons r rest ih =>
    rcases List.mem_cons.mp h with he | hm
    · rw [← he, failedItems]
      exact List.mem_cons_self _ _
    · cases r with
      | ok rc tgt =>
        rw [failedItems]
        exact List.mem_append_right _ (ih hm)
      | exn m =>
        rw [failedItems]
        exact List.mem_cons_of_mem _ (ih hm)

lemma failedItems_length (rs : List TaskResult) :
    (failedItems rs).length + successCount rs = rs.length := by
  induction rs with
  | nil => simp [failedItems, successCount]
  | cons r rest ih =>
    simp only [successCount] at ih
    cases r with
    | ok rc tgt =>
      by_cases h : rc = 0
      · subst h
        simp [failedItems, successCount, List.filter_cons, isSuccess]
        omega
      · simp [failedItems, successCount, List.filter_cons, isSuccess, h]
        omega
    | exn m =>
      simp [failedItems, successCount, List.filter_cons, isSuccess]
      omega

/-! ### The admission gate: a small-step model of the orchestration

`main` creates `asyncio.Semaphore(MAX_CONCURRENT)` (line 244) and one task
per line; each task's whole body — command construction, every copy
attempt and every backoff sleep — runs inside `async with semaphore`
(lines 190-219), which acquires one slot on entry and releases it when the
task returns. Each task is modelled by its phase; the scheduler
interleaves tasks arbitrarily. `holders` counts slots currently held. -/

inductive TPhase where
  | pending
  | acquired
  | running (attempt : Nat)
  | sleeping (attempt : Nat)
  | done (rc : Int)
deriving DecidableEq

/-- A task holds an admission slot from `acquire` until its terminal
    return. -/
def holdsSlot : TPhase → Bool
  | .pending => false
  | .done _ => false
  | _ => true

structure OState where
  holders : Nat
  tasks : List TPhase
deriving DecidableEq

/-- Scheduler step labels, tagged with the acting task's index. -/
inductive Lbl where
  | acquire (i : Nat)
  | build (i : Nat)
  | copy (i : Nat) (attempt : Nat)
  | sleepEnd (i : Nat)
deriving DecidableEq

def lblOwner : Lbl → Nat
  | .acquire i => i
  | .build i => i
  | .copy i _ => i
  | .sleepEnd i => i

/-- One scheduler step. `rcOf i a` is the exit code of task `i`'s attempt
    `a`. `acquire` needs a free slot (`semaphore.acquire`); `build` is line
    191; `copy` runs one attempt and branches exactly as lines 199-219
    (success returns, failure with budget left goes to the backoff sleep,
    exhaustion returns `rc or 1`); returns release the slot. -/
inductive Step (maxC retryCount : Nat) (rcOf : Nat → Nat → Int) :
    OState → Lbl → OState → Prop where
  | acquire {s : OState} {i : Nat}
      (h : s.tasks.get? i = some TPhase.pending) (hc : s.holders < maxC) :
      Step maxC retryCount rcOf s (Lbl.acquire i)
        ⟨s.holders + 1, s.tasks.set i TPhase.acquired⟩
  | build {s : OState} {i : Nat} (h : s.tasks.get? i = some TPhase.acquired) :
      Step maxC retryCount rcOf s (Lbl.build i)
        ⟨s.holders, s.tasks.set i (TPhase.running 1)⟩
  | copyOk {s : OState} {i a : Nat}
      (h : s.tasks.get? i = some (TPhase.running a)) (hrc : rcOf i a = 0) :
      Step maxC retryCount rcOf s (Lbl.copy i a)
        ⟨s.holders - 1, s.tasks.set i (TPhase.done 0)⟩
  | copyRetry {s : OState} {i a : Nat}
      (h : s.tasks.get? i = some (TPhase.running a)) (hrc : rcOf i a ≠ 0)
      (hr : a ≤ retryCount) :
      Step maxC retryCount rcOf s (Lbl.copy i a)
        ⟨s.holders, s.tasks.set i (TPhase.sleeping a)⟩
  | copyFail {s : OState} {i a : Nat}
      (h : s.tasks.get? i = some (TPhase.running a)) (hrc : rcOf i a ≠ 0)
      (hr : ¬ a ≤ retryCount) :
      Step maxC retryCount rcOf s (Lbl.copy i a)
        ⟨s.holders - 1, s.tasks.set i (TPhase.done (if rcOf i a = 0 then 1 else rcOf i a))⟩
  | sleepEnd {s : OState} {i a : Nat}
      (h : s.tasks.get? i = some (TPhase.sleeping a)) :
      Step maxC retryCount rcOf s (Lbl.sleepEnd i)
        ⟨s.holders, s.tasks.set i (TPhase.running (a + 1))⟩

/-- Finite interleavings of scheduler steps. -/
inductive Trace (maxC retryCount : Nat) (rcOf : Nat → Nat → Int) :
    OState → List Lbl → OState → Prop where
  | nil {s : OState} : Trace maxC retryCount rcOf s [] s
  | cons {s s1 s2 : OState} {l : Lbl} {ls : List Lbl}
      (hstep : Step maxC retryCount rcOf s l s1)
      (htr : Trace maxC retryCount rcOf s1 ls s2) :
      Trace maxC retryCount rcOf s (l :: ls) s2

/-- The start of a run over `n` input lines: no slot held, every task
    waiting for admission. -/
def initState (n : Nat) : OState := ⟨0, List.replicate n TPhase.pending⟩

lemma countP_set_balanced {α : Type} (p : α → Bool) :
    ∀ (l : List α) (i : Nat) (x old : α), l.get? i = some old →
      (l.set i x).countP p + (if p old then 1 else 0) =
        l.countP p + (if p x then 1 else 0) := by
  intro l
  induction l with
  | nil => intro i x old h; cases h
  | cons a rest ih =>
    intro i x old h
    cases i with
    | zero =>
      injection h with h
      subst h
      simp [List.countP_cons]
      omega
    | succ i =>
      have := ih i x old h
      simp only [List.set, List.countP_cons]
      omega

lemma countP_pos_of_get? {α : Type} (p : α → Bool) (l : List α) (i : Nat) (x : α)
    (h : l.get? i = some x) (hp : p x = true) : 1 ≤ l.countP p := by
  have hm : x ∈ l := List.get?_mem h
  exact List.countP_pos_iff.mpr ⟨x, hm, hp⟩

/-- The slot-count invariant: `holders` equals the number of tasks in a
    slot-holding phase and never exceeds the gate size. -/
def slotInv (maxC : Nat) (s : OState) : Prop :=
  s.holders = s.tasks.countP holdsSlot ∧ s.holders ≤ maxC

lemma slotInv_step {maxC retryCount : Nat} {rcOf : Nat → Nat → Int}
    {s s1 : OState} {l : Lbl} (hstep : Step maxC retryCount rcOf s l s1)
    (hinv : slotInv maxC s) : slotInv maxC s1 := by
  obtain ⟨hcnt, hle⟩ := hinv
  cases hstep with
  | @acquire i h hc =>
    have hb := countP_set_balanced holdsSlot s.tasks i TPhase.acquired TPhase.pending h
    simp [holdsSlot] at hb
    refine ⟨?_, ?_⟩ <;> dsimp only <;> omega
  | @build i h =>
    have hb := countP_set_balanced holdsSlot s.tasks i (TPhase.running 1) TPhase.acquired h
    simp [holdsSlot] at hb
    refine ⟨?_, ?_⟩ <;> dsimp only <;> omega
  | @copyOk i a h hrc =>
    have hb := countP_set_balanced holdsSlot s.tasks i (TPhase.done 0) (TPhase.running a) h
    have hpos := countP_pos_of_get? holdsSlot s.tasks i (TPhase.running a) h (by simp [holdsSlot])
    simp [holdsSlot] at hb
    refine ⟨?_, ?_⟩ <;> dsimp only <;> omega
  | @copyRetry i a h hrc hr =>
    have hb := countP_set_balanced holdsSlot s.tasks i (TPhase.sleeping a) (TPhase.running a) h
    simp [holdsSlot] at hb
    refine ⟨?_, ?_⟩ <;> dsimp only <;> omega
  | @copyFail i a h hrc hr =>
    have hb := countP_set_balanced holdsSlot s.tasks i
      (TPhase.done (if rcOf i a = 0 then 1 else rcOf i a)) (TPhase.running a) h
    have hpos := countP_pos_of_get? holdsSlot s.tasks i (TPhase.running a) h (by simp [holdsSlot])
    simp [holdsSlot] at hb
    refine ⟨?_, ?_⟩ <;> dsimp only <;> omega
  | @sleepEnd i a h =>
    have hb := countP_set_balanced holdsSlot s.tasks i (TPhase.running (a + 1)) (TPhase.sleeping a) h
    simp [holdsSlot] at hb
    refine ⟨?_, ?_⟩ <;> dsimp only <;> omega

lemma slotInv_trace {maxC retryCount : Nat} {rcOf : Nat → Nat → Int}
    {s s1 : OState} {tr : List Lbl} (htr : Trace maxC retryCount rcOf s tr s1)
    (hinv : slotInv maxC s) : slotInv maxC s1 := by
  induction htr with
  | nil => exact hinv
  | cons hstep _htr ih => exact ih (slotInv_step hstep hinv)

lemma slotInv_init (maxC n : Nat) : slotInv maxC (initState n) := by
  constructor
  · simp only [initState]
    induction n with
    | zero => simp
    | succ n ih => simpa [List.replicate_succ, List.countP_cons, holdsSlot] using ih
  · simp [initState]

/-! ### Per-task slot discipline -/

def isAcq (i : Nat) : Lbl → Bool
  | .acquire j => j == i
  | _ => false

def isBld (i : Nat) : Lbl → Bool
  | .build j => j == i
  | _ => false

def isCpy (i : Nat) : Lbl → Bool
  | .copy j _ => j == i
  | _ => false

/-- Relation between the event counts of task `i` and its current phase:
    one acquisition precedes the build, the build precedes every copy
    attempt, `running a` has completed `a - 1` attempts, and a finished
    task has made at least one attempt. -/
def taskInvCounts (cA cB cC : Nat) : Option TPhase → Prop
  | none => cA = 0 ∧ cB = 0 ∧ cC = 0
  | some TPhase.pending => cA = 0 ∧ cB = 0 ∧ cC = 0
  | some TPhase.acquired => cA = 1 ∧ cB = 0 ∧ cC = 0
  | some (TPhase.running a) => cA = 1 ∧ cB = 1 ∧ cC + 1 = a
  | some (TPhase.sleeping a) => cA = 1 ∧ cB = 1 ∧ cC = a ∧ 1 ≤ a
  | some (TPhase.done _rc) => cA = 1 ∧ cB = 1 ∧ 1 ≤ cC

def taskInv (i : Nat) (tr : List Lbl) (s : OState) : Prop :=
  taskInvCounts (tr.countP (isAcq i)) (tr.countP (isBld i)) (tr.countP (isCpy i))
    (s.tasks.get? i)

lemma trace_append {maxC retryCount : Nat} {rcOf : Nat → Nat → Int} :
    ∀ {s m s2 : OState} {t1 t2 : List Lbl},
      Trace maxC retryCount rcOf s t1 m → Trace maxC retryCount rcOf m t2 s2 →
        Trace maxC retryCount rcOf s (t1 ++ t2) s2 := by
  intro s m s2 t1 t2 h1
  induction h1 with
  | nil => intro h2; exact h2
  | cons hstep _htr ih => intro h2; exact Trace.cons hstep (ih h2)

lemma trace_split {maxC retryCount : Nat} {rcOf : Nat → Nat → Int} :
    ∀ (t1 : List Lbl) {t2 : List Lbl} {s s2 : OState},
      Trace maxC retryCount rcOf s (t1 ++ t2) s2 →
        ∃ m, Trace maxC retryCount rcOf s t1 m ∧ Trace maxC retryCount rcOf m t2 s2 := by
  intro t1
  induction t1 with
  | nil => intro t2 s s2 h; exact ⟨s, Trace.nil, h⟩
  | cons l t1 ih =>
    intro t2 s s2 h
    cases h with
    | cons hstep htr =>
      obtain ⟨m, hm1, hm2⟩ := ih htr
      exact ⟨m, Trace.cons hstep hm1, hm2⟩

lemma trace_singleton {maxC retryCount : Nat} {rcOf : Nat → Nat → Int}
    {s s2 : OState} {l : Lbl} (h : Trace maxC retryCount rcOf s [l] s2) :
    Step maxC retryCount rcOf s l s2 := by
  cases h with
  | cons hstep htr => cases htr; exact hstep

lemma get?_set_self {α : Type} :
    ∀ (l : List α) (i : Nat) (x old : α), l.get? i = some old →
      (l.set i x).get? i = some x := by
  intro l
  induction l with
  | nil => intro i x old h; cases h
  | cons a rest ih =>
    intro i x old h
    cases i with
    | zero => rfl
    | succ i => exact ih i x old h

lemma get?_set_other {α : Type} :
    ∀ (l : List α) (i j : Nat) (x : α), j ≠ i →
      (l.set i x).get? j = l.get? j := by
  intro l
  induction l with
  | nil => intro i j x _h; rfl
  | cons a rest ih =>
    intro i j x h
    cases i with
    | zero =>
      cases j with
      | zero => exact absurd rfl h
      | succ j => rfl
    | succ i =>
      cases j with
      | zero => rfl
      | succ j => exact ih i j x (fun he => h (by rw [he]))

lemma countP_snoc (p : Lbl → Bool) (t : List Lbl) (l : Lbl) :
    (t ++ [l]).countP p = t.countP p + (if p l then 1 else 0) := by
  simp [List.countP_append, List.countP_cons]

lemma taskInv_init (i n : Nat) : taskInv i [] (initState n) := by
  unfold taskInv initState
  cases hget : (List.replicate n TPhase.pending).get? i with
  | none => refine ⟨?_, ?_, ?_⟩ <;> simp
  | some ph =>
    have hp : ph = TPhase.pending := List.eq_of_mem_replicate (List.get?_mem hget)
    subst hp
    refine ⟨?_, ?_, ?_⟩ <;> simp

lemma taskInv_snoc_other (i : Nat) {t1 : List Lbl} {l : Lbl} {m s : OState}
    (hinv : taskInv i t1 m) (howner : lblOwner l ≠ i)
    (htasks : s.tasks.get? i = m.tasks.get? i) :
    taskInv i (t1 ++ [l]) s := by
  have ha : isAcq i l = false := by
    cases l with
    | acquire j => exact beq_eq_false_iff_ne.mpr howner
    | build j => rfl
    | copy j a => rfl
    | sleepEnd j => rfl
  have hb : isBld i l = false := by
    cases l with
    | acquire j => rfl
    | build j => exact beq_eq_false_iff_ne.mpr howner
    | copy j a => rfl
    | sleepEnd j => rfl
  have hc : isCpy i l = false := by
    cases l with
    | acquire j => rfl
    | build j => rfl
    | copy j a => exact beq_eq_false_iff_ne.mpr howner
    | sleepEnd j => rfl
  unfold taskInv at hinv ⊢
  rw [countP_snoc, countP_snoc, countP_snoc, ha, hb, hc, htasks]
  simpa using hinv

lemma taskInv_snoc {maxC retryCount : Nat} {rcOf : Nat → Nat → Int}
    {m s : OState} {l : Lbl} {t1 : List Lbl} (i : Nat)
    (hstep : Step maxC retryCount rcOf m l s) (hinv : taskInv i t1 m) :
    taskInv i (t1 ++ [l]) s := by
  cases hstep with
  | @acquire j h hc =>
    by_cases hj : j = i
    · subst hj
      unfold taskInv at hinv ⊢
      rw [h] at hinv
      obtain ⟨h1, h2, h3⟩ := hinv
      dsimp only
      rw [get?_set_self _ _ _ _ h, countP_snoc, countP_snoc, countP_snoc]
      exact ⟨by simp [isAcq, h1], by simp [isBld, h2], by simp [isCpy, h3]⟩
    · exact taskInv_snoc_other i hinv hj
        (get?_set_other _ _ _ _ (fun he => hj he.symm))
  | @build j h =>
    by_cases hj : j = i
    · subst hj
      unfold taskInv at hinv ⊢
      rw [h] at hinv
      obtain ⟨h1, h2, h3⟩ := hinv
      dsimp only
      rw [get?_set_self _ _ _ _ h, countP_snoc, countP_snoc, countP_snoc]
      exact ⟨by simp [isAcq, h1], by simp [isBld, h2], by simp [isCpy, h3]⟩
    · exact taskInv_snoc_other i hinv hj
        (get?_set_other _ _ _ _ (fun he => hj he.symm))
  | @copyOk j a h hrc =>
    by_cases hj : j = i
    · subst hj
      unfold taskInv at hinv ⊢
      rw [h] at hinv
      obtain ⟨h1, h2, h3⟩ := hinv
      dsimp only
      rw [get?_set_self _ _ _ _ h, countP_snoc, countP_snoc, countP_snoc]
      exact ⟨by simp [isAcq, h1], by simp [isBld, h2], by simp [isCpy, h3]; omega⟩
    · exact taskInv_snoc_other i hinv hj
        (get?_set_other _ _ _ _ (fun he => hj he.symm))
  | @copyRetry j a h hrc hr =>
    by_cases hj : j = i
    · subst hj
      unfold taskInv at hinv ⊢
      rw [h] at hinv
      obtain ⟨h1, h2, h3⟩ := hinv
      dsimp only
      rw [get?_set_self _ _ _ _ h, countP_snoc, countP_snoc, countP_snoc]
      exact ⟨by simp [isAcq, h1], by simp [isBld, h2], by simp [isCpy, h3]; omega⟩
    · exact taskInv_snoc_other i hinv hj
        (get?_set_other _ _ _ _ (fun he => hj he.symm))
  | @copyFail j a h hrc hr =>
    by_cases hj : j = i
    · subst hj
      unfold taskInv at hinv ⊢
      rw [h] at hinv
      obtain ⟨h1, h2, h3⟩ := hinv
      dsimp only
      rw [get?_set_self _ _ _ _ h, countP_snoc, countP_snoc, countP_snoc]
      exact ⟨by simp [isAcq, h1], by simp [isBld, h2], by simp [isCpy, h3]; omega⟩
    · exact taskInv_snoc_other i hinv hj
        (get?_set_other _ _ _ _ (fun he => hj he.symm))
  | @sleepEnd j a h =>
    by_cases hj : j = i
    · subst hj
      unfold taskInv at hinv ⊢
      rw [h] at hinv
      obtain ⟨h1, h2, h3, h4⟩ := hinv
      dsimp only
      rw [get?_set_self _ _ _ _ h, countP_snoc, countP_snoc, countP_snoc]
      exact ⟨by simp [isAcq, h1], by simp [isBld, h2], by simp [isCpy, h3]⟩
    · exact taskInv_snoc_other i hinv hj
        (get?_set_other _ _ _ _ (fun he => hj he.symm))

lemma taskInv_trace {maxC retryCount : Nat} {rcOf : Nat → Nat → Int} {n : Nat} :
    ∀ (tr : List Lbl) (s : OState),
      Trace maxC retryCount rcOf (initState n) tr s → ∀ i, taskInv i tr s := by
  intro tr
  induction tr using List.reverseRecOn with
  | nil =>
    intro s h i
    cases h
    exact taskInv_init i n
  | append_singleton t1 l ih =>
    intro s h i
    obtain ⟨m, hm1, hm2⟩ := trace_split t1 h
    exact taskInv_snoc i (trace_singleton hm2) (ih m hm1 i)

/-- A finished task never steps again: `done` is absorbing. -/
lemma step_not_done {maxC retryCount : Nat} {rcOf : Nat → Nat → Int}
    {s s2 : OState} {l : Lbl} (hstep : Step maxC retryCount rcOf s l s2)
    (i : Nat) (rc : Int) (hdone : s.tasks.get? i = some (TPhase.done rc)) :
    lblOwner l ≠ i := by
  intro howner
  cases hstep with
  | @acquire j h hc =>
    simp only [lblOwner] at howner
    subst howner
    rw [hdone] at h
    simp at h
  | @build j h =>
    simp only [lblOwner] at howner
    subst howner
    rw [hdone] at h
    simp at h
  | @copyOk j a h hrc =>
    simp only [lblOwner] at howner
    subst howner
    rw [hdone] at h
    simp at h
  | @copyRetry j a h hrc hr =>
    simp only [lblOwner] at howner
    subst howner
    rw [hdone] at h
    simp at h
  | @copyFail j a h hrc hr =>
    simp only [lblOwner] at howner
    subst howner
    rw [hdone] at h
    simp at h
  | @sleepEnd j a h =>
    simp only [lblOwner] at howner
    subst howner
    rw [hdone] at h
    simp at h

/-! ### Claim theorems -/

lemma dupPrefix_eq_ite (line : String) (dups : String → Bool) :
    dupPrefix line dups =
      if dups (imageNameOf line) = true ∧ 2 ≤ (partsOf line).length
      then (partsOf line).getD ((partsOf line).length - 2) "" ++ "_" else "" := by
  unfold dupPrefix
  by_cases h1 : dups (imageNameOf line) = true
  · by_cases h2 : 2 ≤ (partsOf line).length <;> simp [h1, h2]
  · simp [h1]

/-- C1: `detect_duplicates` flags `name` iff `name` occurs under at least
    two distinct `sourceNamespace` values across the input lines (the same
    namespace repeated is not a duplicate), and the flag is sticky: once a
    prefix of the scan flags `name`, processing any further lines leaves it
    flagged. -/
theorem detect_duplicates_spec (lines : List String) (name : String) :
    (detect_duplicates lines name = true ↔
      ∃ v1 v2, (name, v1) ∈ lines.map nameNs ∧ (name, v2) ∈ lines.map nameNs ∧ v1 ≠ v2) ∧
    (∀ more : List String, detect_duplicates lines name = true →
      detect_duplicates (lines ++ more) name = true) :=
  ⟨detect_dup_iff lines name, fun more h => detect_dup_mono lines more name h⟩

theorem detect_duplicates_spec_witness :
    detect_duplicates ["library/nginx:latest", "otherorg/nginx:latest"] "nginx" = true ∧
    detect_duplicates (["library/nginx:latest", "otherorg/nginx:latest"] ++
      ["library/nginx:1.25"]) "nginx" = true := by
  have h := detect_duplicates_spec ["library/nginx:latest", "otherorg/nginx:latest"] "nginx"
  have hflag : detect_duplicates ["library/nginx:latest", "otherorg/nginx:latest"] "nginx" =
      true :=
    h.1.mpr ⟨"library_", "otherorg_", by decide, by decide, by decide⟩
  exact ⟨hflag, h.2 ["library/nginx:1.25"] hflag⟩

/-- C2 (counterexample): the claimed namespace selection — second-to-last
    segment when at least 2 segments, the sole segment when exactly 1 —
    disagrees with the code, which only assigns a namespace for exactly 2
    or 3 segments: a 4-segment reference and a 1-segment reference both get
    the empty namespace from the code but not from the claim. -/
theorem nsSeg_spec_wording_counterexample :
    nsSeg (partsOf "registry.io/org/team/app:1") ≠
      nsSegSpecWording (partsOf "registry.io/org/team/app:1") ∧
    nsSeg (partsOf "nginx:latest") ≠ nsSegSpecWording (partsOf "nginx:latest") := by
  decide

/-- C2 (amended): the namespace used for duplicate detection is the
    second-to-last path segment when the digest-stripped path has exactly 2
    or exactly 3 slash-separated segments, and empty otherwise (in
    particular for 1-segment and for 4-or-more-segment paths). -/
theorem nsSeg_amended (line : String) :
    nsSeg (partsOf line) =
      if (partsOf line).length = 2 ∨ (partsOf line).length = 3
      then (partsOf line).getD ((partsOf line).length - 2) ""
      else "" := by
  by_cases h3 : (partsOf line).length = 3
  · simp [nsSeg, h3]
  · by_cases h2 : (partsOf line).length = 2
    · simp [nsSeg, h2, h3]
    · simp [nsSeg, h2, h3]

/-- C3: the destination is
    `docker://<registry>/<namespace>/<prefix><finalSegmentWithTag><platformSuffix>`
    where the prefix is the segment before the final one followed by `_`
    exactly when the image name is in the duplicate map and the reference
    has at least 2 path segments (and empty, without error, otherwise), and
    the `-os-arch` suffix (slashes turned into hyphens) is appended exactly
    when a platform token was parsed. -/
theorem build_cmd_destination (cfg : Config) (line : String) (dups : String → Bool) :
    (build_skopeo_copy_cmd cfg line dups).2.1 =
      "docker://" ++ cfg.registry ++ "/" ++ cfg.nameSpace ++ "/" ++
        (if dups (imageNameOf line) = true ∧ 2 ≤ (partsOf line).length
         then (partsOf line).getD ((partsOf line).length - 2) "" ++ "_" else "") ++
        imageNameTagOf line ++
        (match platformOf line with
         | some p => "-" ++ pyReplaceChar p '/' '-'
         | none => "") := by
  show "docker://" ++ cfg.registry ++ "/" ++ cfg.nameSpace ++ "/" ++
      dupPrefix line dups ++ imageNameTagOf line ++ platformSfx line = _
  rw [dupPrefix_eq_ite]
  rfl

/-- C4: a task whose attempts all return non-zero makes exactly
    `RETRY_COUNT + 1` attempts, every attempt uses the same
    source/destination/command, consecutive attempts are separated by
    backoff sleeps of `2 ^ (attempt - 1)` seconds, and the task resolves as
    failed with the last attempt's (non-zero) exit code. -/
theorem sync_task_retry_exhaustion (cfg : Config) (retryCount timeout : Nat) (line : String)
    (dups : String → Bool) (outcome : Nat → AttemptOutcome)
    (hfail : ∀ a, (runCmd timeout (outcome a)).1 ≠ 0) :
    sync_image_task cfg retryCount timeout line dups outcome =
      (expectedFailTrace (build_skopeo_copy_cmd cfg line dups).1
        (build_skopeo_copy_cmd cfg line dups).2.1
        (build_skopeo_copy_cmd cfg line dups).2.2 retryCount,
       (runCmd timeout (outcome (retryCount + 1))).1,
       (build_skopeo_copy_cmd cfg line dups).2.1) ∧
    (sync_image_task cfg retryCount timeout line dups outcome).1.countP isAttemptEv =
      retryCount + 1 ∧
    (sync_image_task cfg retryCount timeout line dups outcome).2.1 ≠ 0 := by
  have h := syncLoop_all_fail retryCount timeout outcome
    (build_skopeo_copy_cmd cfg line dups).1 (build_skopeo_copy_cmd cfg line dups).2.1
    (build_skopeo_copy_cmd cfg line dups).2.2 hfail retryCount 0 (by omega)
  have hmain : sync_image_task cfg retryCount timeout line dups outcome =
      (expectedFailTrace (build_skopeo_copy_cmd cfg line dups).1
        (build_skopeo_copy_cmd cfg line dups).2.1
        (build_skopeo_copy_cmd cfg line dups).2.2 retryCount,
       (runCmd timeout (outcome (retryCount + 1))).1,
       (build_skopeo_copy_cmd cfg line dups).2.1) := by
    rw [← expectedFailTraceFrom_zero]
    exact h
  refine ⟨hmain, ?_, ?_⟩
  · rw [hmain]
    simpa using expectedFailTrace_attempt_count (build_skopeo_copy_cmd cfg line dups).1
      (build_skopeo_copy_cmd cfg line dups).2.1 (build_skopeo_copy_cmd cfg line dups).2.2
      retryCount
  · rw [hmain]
    simpa using hfail (retryCount + 1)

theorem sync_task_retry_exhaustion_witness :
    (sync_image_task ⟨"registry.example.com", "mirror"⟩ 2 1200 "library/nginx:latest"
      (fun _ => false) (fun _ => AttemptOutcome.completed 1 "" "")).1.countP isAttemptEv =
      2 + 1 ∧
    (sync_image_task ⟨"registry.example.com", "mirror"⟩ 2 1200 "library/nginx:latest"
      (fun _ => false) (fun _ => AttemptOutcome.completed 1 "" "")).2.1 ≠ 0 :=
  ⟨(sync_task_retry_exhaustion ⟨"registry.example.com", "mirror"⟩ 2 1200
      "library/nginx:latest" (fun _ => false) (fun _ => AttemptOutcome.completed 1 "" "")
      (by intro a; show (runCmd 1200 (AttemptOutcome.completed 1 "" "")).1 ≠ 0; decide)).2.1,
   (sync_task_retry_exhaustion ⟨"registry.example.com", "mirror"⟩ 2 1200
      "library/nginx:latest" (fun _ => false) (fun _ => AttemptOutcome.completed 1 "" "")
      (by intro a; show (runCmd 1200 (AttemptOutcome.completed 1 "" "")).1 ≠ 0; decide)).2.2⟩

/-- C7: permuting the input lines (same multiset of
    `(imageName, sourceNamespace)` pairs) leaves the flagged set unchanged,
    whichever namespace happens to be first-seen. -/
theorem detect_duplicates_perm_invariant (l1 l2 : List String)
    (h : (l1.map nameNs).Perm (l2.map nameNs)) (name : String) :
    detect_duplicates l1 name = detect_duplicates l2 name := by
  have c1 := detect_dup_iff l1 name
  have c2 := detect_dup_iff l2 name
  have hiff : detect_duplicates l1 name = true ↔ detect_duplicates l2 name = true := by
    rw [c1, c2]
    constructor
    · rintro ⟨v1, v2, h1, h2, hne⟩
      exact ⟨v1, v2, h.mem_iff.mp h1, h.mem_iff.mp h2, hne⟩
    · rintro ⟨v1, v2, h1, h2, hne⟩
      exact ⟨v1, v2, h.mem_iff.mpr h1, h.mem_iff.mpr h2, hne⟩
  cases hb1 : detect_duplicates l1 name <;> cases hb2 : detect_duplicates l2 name <;>
    simp_all

theorem detect_duplicates_perm_invariant_witness :
    detect_duplicates ["library/nginx:latest", "otherorg/nginx:latest", "alpine:3.19"] "nginx" =
      detect_duplicates ["otherorg/nginx:latest", "alpine:3.19", "library/nginx:latest"]
        "nginx" :=
  detect_duplicates_perm_invariant
    ["library/nginx:latest", "otherorg/nginx:latest", "alpine:3.19"]
    ["otherorg/nginx:latest", "alpine:3.19", "library/nginx:latest"] (by decide) "nginx"

/-- C8: whenever a `--platform` value is parsed, the command carries
    `--override-os`/`--override-arch` whose values fall back to `"linux"`
    when the os part is empty and to `"amd64"` when the arch part is
    missing or empty; in particular a platform value with no `/` yields the
    arch default. -/
theorem build_cmd_platform_defaults (cfg : Config) (line : String) (dups : String → Bool)
    (p : String) (h : platformOf line = some p) :
    (build_skopeo_copy_cmd cfg line dups).2.2 =
      ["skopeo", "copy", "--override-os", overrideOs p, "--override-arch", overrideArch p,
        (build_skopeo_copy_cmd cfg line dups).1, (build_skopeo_copy_cmd cfg line dups).2.1] ∧
    ((pySplit '/' p).getD 0 "" = "" → overrideOs p = "linux") ∧
    ((pySplit '/' p).length < 2 ∨ (pySplit '/' p).getD 1 "" = "" → overrideArch p = "amd64") ∧
    ('/' ∉ p.toList → overrideArch p = "amd64") := by
  refine ⟨?_, ?_, ?_, ?_⟩
  · simp [build_skopeo_copy_cmd, h]
  · intro h0
    unfold overrideOs
    rw [if_neg (fun hne => hne h0)]
  · intro h0
    unfold overrideArch
    rcases h0 with h0 | h0
    · rw [if_neg (fun hand => absurd hand.1 (by omega))]
    · rw [if_neg (fun hand => hand.2 h0)]
  · intro hns
    have hsp : pySplit '/' p = [p] := pySplit_no_sep '/' p hns
    unfold overrideArch
    rw [hsp]
    simp

theorem build_cmd_platform_defaults_witness :
    (build_skopeo_copy_cmd ⟨"registry.example.com", "mirror"⟩
        "--platform arm64 alpine:3.19" (fun _ => false)).2.2 =
      ["skopeo", "copy", "--override-os", overrideOs "arm64", "--override-arch",
        overrideArch "arm64",
        (build_skopeo_copy_cmd ⟨"registry.example.com", "mirror"⟩
          "--platform arm64 alpine:3.19" (fun _ => false)).1,
        (build_skopeo_copy_cmd ⟨"registry.example.com", "mirror"⟩
          "--platform arm64 alpine:3.19" (fun _ => false)).2.1] ∧
    ((pySplit '/' "arm64").getD 0 "" = "" → overrideOs "arm64" = "linux") ∧
    ((pySplit '/' "arm64").length < 2 ∨ (pySplit '/' "arm64").getD 1 "" = "" →
      overrideArch "arm64" = "amd64") ∧
    ('/' ∉ "arm64".toList → overrideArch "arm64" = "amd64") :=
  build_cmd_platform_defaults ⟨"registry.example.com", "mirror"⟩
    "--platform arm64 alpine:3.19" (fun _ => false) "arm64" (by decide)

/-- C9: a timed-out attempt is recorded with the synthetic exit code 124
    and the `TIMEOUT after <t>s` stderr marker (not an exit code of the
    tool, whose codes are forwarded verbatim by the completed path), the
    external process is killed, and — since the retry loop inspects only
    whether an attempt's code is zero — a timeout drives the retry/backoff
    logic exactly like any external non-zero exit. -/
theorem timeout_attempt_spec (retryCount timeout : Nat) (o1 o2 : Nat → AttemptOutcome)
    (source target : String) (cmd : List String)
    (h : ∀ a, ((runCmd timeout (o1 a)).1 = 0 ↔ (runCmd timeout (o2 a)).1 = 0)) :
    runCmd timeout AttemptOutcome.timedOut =
      (124, "", "TIMEOUT after " ++ toString timeout ++ "s") ∧
    killsProcess AttemptOutcome.timedOut = true ∧
    (runCmd timeout AttemptOutcome.timedOut).1 ≠ 0 ∧
    (∀ rc out err, (runCmd timeout (AttemptOutcome.completed rc out err)).1 = rc) ∧
    (∀ fuel attempt,
      (syncLoop retryCount timeout o1 source target cmd fuel attempt).1 =
        (syncLoop retryCount timeout o2 source target cmd fuel attempt).1 ∧
      ((syncLoop retryCount timeout o1 source target cmd fuel attempt).2.1 = 0 ↔
       (syncLoop retryCount timeout o2 source target cmd fuel attempt).2.1 = 0)) :=
  ⟨rfl, rfl, by norm_num [runCmd], fun _rc _out _err => rfl,
   syncLoop_status_only retryCount timeout o1 o2 source target cmd h⟩

theorem timeout_attempt_spec_witness :
    runCmd 60 AttemptOutcome.timedOut =
      (124, "", "TIMEOUT after " ++ toString 60 ++ "s") ∧
    killsProcess AttemptOutcome.timedOut = true ∧
    (runCmd 60 AttemptOutcome.timedOut).1 ≠ 0 ∧
    (∀ rc out err, (runCmd 60 (AttemptOutcome.completed rc out err)).1 = rc) ∧
    (∀ fuel attempt,
      (syncLoop 1 60 (fun _ => AttemptOutcome.timedOut) "s" "t" ["c"] fuel attempt).1 =
        (syncLoop 1 60 (fun _ => AttemptOutcome.completed 7 "" "fail") "s" "t" ["c"]
          fuel attempt).1 ∧
      ((syncLoop 1 60 (fun _ => AttemptOutcome.timedOut) "s" "t" ["c"] fuel attempt).2.1 = 0 ↔
       (syncLoop 1 60 (fun _ => AttemptOutcome.completed 7 "" "fail") "s" "t" ["c"]
          fuel attempt).2.1 = 0)) :=
  timeout_attempt_spec 1 60 (fun _ => AttemptOutcome.timedOut)
    (fun _ => AttemptOutcome.completed 7 "" "fail") "s" "t" ["c"]
    (by
      intro a
      show (runCmd 60 AttemptOutcome.timedOut).1 = 0 ↔
        (runCmd 60 (AttemptOutcome.completed 7 "" "fail")).1 = 0
      decide)

/-- C6: the run exits 0 iff the configuration is present, the copy tool
    and login both succeeded, the input file exists, and every task
    returned exit code 0; otherwise it exits 1. A task whose coroutine
    raised instead of returning a tuple is tallied as a failure with the
    placeholder destination `"unknown"` while every other result is still
    aggregated (no abort): failures plus successes always account for all
    tasks. -/
theorem main_exit_code_spec (configOk : Bool) (skopeoRc loginRc : Int) (fileOk : Bool)
    (results : List TaskResult) :
    (mainExitCode configOk skopeoRc loginRc fileOk results = 0 ↔
      (configOk = true ∧ skopeoRc = 0 ∧ loginRc = 0 ∧ fileOk = true ∧
        ∀ r ∈ results, ∃ tgt, r = TaskResult.ok 0 tgt)) ∧
    (mainExitCode configOk skopeoRc loginRc fileOk results = 0 ∨
      mainExitCode configOk skopeoRc loginRc fileOk results = 1) ∧
    (∀ msg, TaskResult.exn msg ∈ results →
      ("unknown", 1) ∈ failedItems results ∧
      mainExitCode configOk skopeoRc loginRc fileOk results = 1) ∧
    (failedItems results).length + successCount results = results.length := by
  refine ⟨?_, ?_, ?_, failedItems_length results⟩
  · unfold mainExitCode
    by_cases hfi : failedItems results = [] <;>
      cases configOk <;> cases fileOk <;>
        by_cases h1 : skopeoRc = 0 <;> by_cases h2 : loginRc = 0 <;>
          simp [h1, h2, hfi, ← failedItems_eq_nil_iff]
  · unfold mainExitCode
    split_ifs <;> simp
  · intro msg hmem
    have hne : failedItems results ≠ [] := by
      intro hnil
      have := exn_mem_failedItems results msg hmem
      rw [hnil] at this
      cases this
    refine ⟨exn_mem_failedItems results msg hmem, ?_⟩
    unfold mainExitCode
    split_ifs <;> rfl

theorem main_exit_code_spec_witness :
    (mainExitCode true 0 0 true
        [TaskResult.ok 0 "docker://r/n/a:1", TaskResult.exn "boom"] = 0 ↔
      (true = true ∧ (0 : Int) = 0 ∧ (0 : Int) = 0 ∧ true = true ∧
        ∀ r ∈ [TaskResult.ok 0 "docker://r/n/a:1", TaskResult.exn "boom"],
          ∃ tgt, r = TaskResult.ok 0 tgt)) ∧
    (mainExitCode true 0 0 true
        [TaskResult.ok 0 "docker://r/n/a:1", TaskResult.exn "boom"] = 0 ∨
      mainExitCode true 0 0 true
        [TaskResult.ok 0 "docker://r/n/a:1", TaskResult.exn "boom"] = 1) ∧
    (∀ msg, TaskResult.exn msg ∈ [TaskResult.ok 0 "docker://r/n/a:1", TaskResult.exn "boom"] →
      ("unknown", 1) ∈ failedItems [TaskResult.ok 0 "docker://r/n/a:1", TaskResult.exn "boom"] ∧
      mainExitCode true 0 0 true
        [TaskResult.ok 0 "docker://r/n/a:1", TaskResult.exn "boom"] = 1) ∧
    (failedItems [TaskResult.ok 0 "docker://r/n/a:1", TaskResult.exn "boom"]).length +
      successCount [TaskResult.ok 0 "docker://r/n/a:1", TaskResult.exn "boom"] =
        ([TaskResult.ok 0 "docker://r/n/a:1", TaskResult.exn "boom"] : List TaskResult).length :=
  main_exit_code_spec true 0 0 true [TaskResult.ok 0 "docker://r/n/a:1", TaskResult.exn "boom"]

/-- C5: along every run of the orchestration from its initial state, the
    number of tasks holding an admission slot never exceeds `MAX_CONCURRENT`
    (the gate size), and a copy attempt can only be performed by a task
    currently in a slot-holding phase. -/
theorem concurrency_bound (maxC retryCount n : Nat) (rcOf : Nat → Nat → Int)
    (tr : List Lbl) (s : OState)
    (h : Trace maxC retryCount rcOf (initState n) tr s) :
    s.holders = s.tasks.countP holdsSlot ∧
    s.tasks.countP holdsSlot ≤ maxC ∧
    (∀ i a s2, Step maxC retryCount rcOf s (Lbl.copy i a) s2 →
      ∃ ph, s.tasks.get? i = some ph ∧ holdsSlot ph = true) := by
  obtain ⟨h1, h2⟩ := slotInv_trace h (slotInv_init maxC n)
  refine ⟨h1, by omega, ?_⟩
  intro i a s2 hstep
  cases hstep with
  | copyOk hget hrc => exact ⟨TPhase.running a, hget, rfl⟩
  | copyRetry hget hrc hr => exact ⟨TPhase.running a, hget, rfl⟩
  | copyFail hget hrc hr => exact ⟨TPhase.running a, hget, rfl⟩

lemma exTraceA : Trace 1 0 (fun _ _ => 0) (initState 2)
    [Lbl.acquire 0, Lbl.build 0, Lbl.copy 0 1, Lbl.acquire 1]
    ⟨1, [TPhase.done 0, TPhase.acquired]⟩ :=
  Trace.cons (@Step.acquire 1 0 (fun _ _ => 0) (initState 2) 0 (by decide) (by decide))
    (Trace.cons
      (@Step.build 1 0 (fun _ _ => 0) ⟨1, [TPhase.acquired, TPhase.pending]⟩ 0 (by decide))
      (Trace.cons
        (@Step.copyOk 1 0 (fun _ _ => 0) ⟨1, [TPhase.running 1, TPhase.pending]⟩ 0 1
          (by decide) (by decide))
        (Trace.cons
          (@Step.acquire 1 0 (fun _ _ => 0) ⟨0, [TPhase.done 0, TPhase.pending]⟩ 1
            (by decide) (by decide))
          Trace.nil)))

theorem concurrency_bound_witness :
    (⟨1, [TPhase.done 0, TPhase.acquired]⟩ : OState).holders =
      (⟨1, [TPhase.done 0, TPhase.acquired]⟩ : OState).tasks.countP holdsSlot ∧
    (⟨1, [TPhase.done 0, TPhase.acquired]⟩ : OState).tasks.countP holdsSlot ≤ 1 ∧
    (∀ i a s2,
      Step 1 0 (fun _ _ => 0) ⟨1, [TPhase.done 0, TPhase.acquired]⟩ (Lbl.copy i a) s2 →
      ∃ ph, (⟨1, [TPhase.done 0, TPhase.acquired]⟩ : OState).tasks.get? i = some ph ∧
        holdsSlot ph = true) :=
  concurrency_bound 1 0 2 (fun _ _ => 0) _ _ exTraceA

/-- C10: along every run, each task acquires the admission slot at most
    once; an acquire and then the command build precede any of its copy
    attempts; from its acquisition until its terminal `done` phase the task
    is never back in `pending` and holds the slot in every non-terminal
    phase (so the slot is held across all retry attempts and backoff
    sleeps); and a task that has reached `done` — the only point where the
    slot is released — never takes another step. -/
theorem slot_held_across_retries (maxC retryCount n : Nat) (rcOf : Nat → Nat → Int)
    (tr : List Lbl) (s : OState)
    (h : Trace maxC retryCount rcOf (initState n) tr s) (i : Nat) :
    tr.countP (isAcq i) ≤ 1 ∧
    (∀ t1 t2, tr = t1 ++ t2 → 0 < t1.countP (isCpy i) →
      t1.countP (isAcq i) = 1 ∧ t1.countP (isBld i) = 1) ∧
    (∀ t1 t2 m, tr = t1 ++ t2 → Trace maxC retryCount rcOf (initState n) t1 m →
      0 < t1.countP (isAcq i) →
      ∀ ph, m.tasks.get? i = some ph →
        ph ≠ TPhase.pending ∧ ((∀ rc, ph ≠ TPhase.done rc) → holdsSlot ph = true)) ∧
    (∀ s1 l s2 rc, Step maxC retryCount rcOf s1 l s2 →
      s1.tasks.get? i = some (TPhase.done rc) → lblOwner l ≠ i) := by
  refine ⟨?_, ?_, ?_, fun s1 l s2 rc hstep hdone => step_not_done hstep i rc hdone⟩
  · have hinv := taskInv_trace tr s h i
    unfold taskInv at hinv
    cases hph : s.tasks.get? i with
    | none =>
      rw [hph] at hinv
      obtain ⟨h1, _, _⟩ := hinv
      omega
    | some ph =>
      rw [hph] at hinv
      cases ph with
      | pending => obtain ⟨h1, _, _⟩ := hinv; omega
      | acquired => obtain ⟨h1, _, _⟩ := hinv; omega
      | running a => obtain ⟨h1, _, _⟩ := hinv; omega
      | sleeping a => obtain ⟨h1, _, _, _⟩ := hinv; omega
      | done rc => obtain ⟨h1, _, _⟩ := hinv; omega
  · intro t1 t2 hsplit hcpy
    subst hsplit
    obtain ⟨m, hm1, _hm2⟩ := trace_split t1 h
    have hinv := taskInv_trace t1 m hm1 i
    unfold taskInv at hinv
    cases hph : m.tasks.get? i with
    | none =>
      rw [hph] at hinv
      obtain ⟨h1, h2, h3⟩ := hinv
      omega
    | some ph =>
      rw [hph] at hinv
      cases ph with
      | pending => obtain ⟨h1, h2, h3⟩ := hinv; omega
      | acquired => obtain ⟨h1, h2, h3⟩ := hinv; omega
      | running a => obtain ⟨h1, h2, _⟩ := hinv; exact ⟨h1, h2⟩
      | sleeping a => obtain ⟨h1, h2, _, _⟩ := hinv; exact ⟨h1, h2⟩
      | done rc => obtain ⟨h1, h2, _⟩ := hinv; exact ⟨h1, h2⟩
  · intro t1 t2 m hsplit hm hacq ph hph
    have hinv := taskInv_trace t1 m hm i
    unfold taskInv at hinv
    rw [hph] at hinv
    cases ph with
    | pending =>
      obtain ⟨h1, _, _⟩ := hinv
      exact absurd h1 (by omega)
    | acquired => exact ⟨fun he => TPhase.noConfusion he, fun _ => rfl⟩
    | running a => exact ⟨fun he => TPhase.noConfusion he, fun _ => rfl⟩
    | sleeping a => exact ⟨fun he => TPhase.noConfusion he, fun _ => rfl⟩
    | done rc => exact ⟨fun he => TPhase.noConfusion he, fun hnd => absurd rfl (hnd rc)⟩

lemma exTraceB : Trace 1 1 (fun _ _ => 1) (initState 1)
    [Lbl.acquire 0, Lbl.build 0, Lbl.copy 0 1, Lbl.sleepEnd 0, Lbl.copy 0 2]
    ⟨0, [TPhase.done 1]⟩ :=
  Trace.cons (@Step.acquire 1 1 (fun _ _ => 1) (initState 1) 0 (by decide) (by decide))
    (Trace.cons (@Step.build 1 1 (fun _ _ => 1) ⟨1, [TPhase.acquired]⟩ 0 (by decide))
      (Trace.cons
        (@Step.copyRetry 1 1 (fun _ _ => 1) ⟨1, [TPhase.running 1]⟩ 0 1
          (by decide) (by decide) (by decide))
        (Trace.cons (@Step.sleepEnd 1 1 (fun _ _ => 1) ⟨1, [TPhase.sleeping 1]⟩ 0 1 (by decide))
          (Trace.cons
            (@Step.copyFail 1 1 (fun _ _ => 1) ⟨1, [TPhase.running 2]⟩ 0 2
              (by decide) (by decide) (by decide))
            Trace.nil))))

theorem slot_held_across_retries_witness :
    ([Lbl.acquire 0, Lbl.build 0, Lbl.copy 0 1, Lbl.sleepEnd 0,
        Lbl.copy 0 2].countP (isAcq 0) ≤ 1) ∧
    (∀ t1 t2,
      [Lbl.acquire 0, Lbl.build 0, Lbl.copy 0 1, Lbl.sleepEnd 0, Lbl.copy 0 2] = t1 ++ t2 →
      0 < t1.countP (isCpy 0) → t1.countP (isAcq 0) = 1 ∧ t1.countP (isBld 0) = 1) ∧
    (∀ t1 t2 m,
      [Lbl.acquire 0, Lbl.build 0, Lbl.copy 0 1, Lbl.sleepEnd 0, Lbl.copy 0 2] = t1 ++ t2 →
      Trace 1 1 (fun _ _ => 1) (initState 1) t1 m →
      0 < t1.countP (isAcq 0) →
      ∀ ph, m.tasks.get? 0 = some ph →
        ph ≠ TPhase.pending ∧ ((∀ rc, ph ≠ TPhase.done rc) → holdsSlot ph = true)) ∧
    (∀ s1 l s2 rc, Step 1 1 (fun _ _ => 1) s1 l s2 →
      s1.tasks.get? 0 = some (TPhase.done rc) → lblOwner l ≠ 0) :=
  slot_held_across_retries 1 1 1 (fun _ _ => 1) _ _ exTraceB 0

end DockerSync
